import Mathlib

/-!
Verification of the parameters analysis module
(`labml_app/analyses/experiments/parameters.py`).

The module ingests `(indicator key, sample)` batches, admits at most
`INDICATOR_LIMIT` distinct canonical identities per collection
(`ParametersAnalysis.track`), and produces two derived read views
(`get_track_summaries`, `get_tracking`).  We embed the collection state and
the four operations shallowly: Python dicts become association lists that
preserve insertion order, the Python `set` of indicators becomes a `Finset`,
and the stable `sorted`/`list.sort` calls become `List.insertionSort`
(a stable sort, like Python's).  External collaborators whose sources are
not part of this file set (the `Series` object, `helper.remove_common_prefix`,
the `labml_db` index/model store, `SeriesEnums`, `settings.INDICATOR_LIMIT`)
are modelled from the specification, as marked on each such definition.
-/

namespace LabmlParams

/-- Modelled from the spec: the serialized state of one `Series` collaborator
(the `Series` class is not among the given sources).  Per the spec it exposes
a summary/detail `mean`, an `is_smoothed_updated` flag, and otherwise opaque
display data, which we fold into a single `payload` field. -/
structure SeriesModel where
  mean : Int
  isSmoothedUpdated : Bool
  payload : Nat
deriving DecidableEq

/-- The collection entity (`ParametersModel`, a `SeriesCollection`): the
tracked set of canonical identities (`indicators`, a Python `set`) and the
tracking store (`tracking`, a Python dict from full indicator key to the
serialized series). -/
structure Collection where
  indicators : Finset String
  tracking : List (String × SeriesModel)
deriving DecidableEq

/-- Modelled from the spec: `SeriesEnums.PARAM`, the type discriminator
designating "parameter" (the `enums` module is not among the given sources). -/
def PARAM : String := "param"

/-- Embedding of Python `str.split('.')` on the character list: splits at
every dot, keeping empty segments, and yields `[""]` on the empty string. -/
def splitSegs : List Char → List (List Char)
  | [] => [[]]
  | c :: rest =>
    if c = '.' then [] :: splitSegs rest
    else
      match splitSegs rest with
      | [] => [[c]]
      | s :: ss => (c :: s) :: ss

/-- `ind.split('.')` from the source, as a list of segment strings. -/
def splitKey (ind : String) : List String :=
  (splitSegs ind.data).map (fun cs => String.mk cs)

/-- Embedding of Python `'.'.join(l)`. -/
def joinDots : List String → String
  | [] => ""
  | [s] => s
  | s :: rest => s ++ "." ++ joinDots rest

/-- `ind_split[0]` from `track` (the split list is never empty). -/
def indType (ind : String) : String :=
  (splitKey ind).headD ""

/-- `'.'.join(ind_split[:-1])` from `track`: the canonical identity of a key,
the unit counted against the cap. -/
def canonicalName (ind : String) : String :=
  joinDots (splitKey ind).dropLast

/-- `name_split[-1]` from the read views: the stat kind of a key. -/
def statKind (ind : String) : String :=
  (splitKey ind).getLastD ""

/-- `'.'.join(name_split[1:-1])` from the read views: the parameter name. -/
def paramName (ind : String) : String :=
  joinDots ((splitKey ind).drop 1).dropLast

/-- Insertion-ordered dict assignment `d[k] = v`: replaces the value in place
when the key is present, appends at the end otherwise. -/
def dictInsert {κ α : Type} [DecidableEq κ] (d : List (κ × α)) (k : κ) (v : α) :
    List (κ × α) :=
  match d with
  | [] => [(k, v)]
  | (k', v') :: rest => if k' = k then (k, v) :: rest else (k', v') :: dictInsert rest k v

/-- Dict lookup `d[k]` / `k in d` on an association list. -/
def dlookup {κ α : Type} [DecidableEq κ] (d : List (κ × α)) (k : κ) : Option α :=
  match d with
  | [] => none
  | (k', v) :: rest => if k' = k then some v else dlookup rest k

/-- One iteration of the loop in `ParametersAnalysis.track` (lines 46-56):
classify the key, admit or reject, and accumulate the forwarded dict `res`.
The accumulator carries the tracked set and `res`. -/
def trackStep (limit : Nat) (acc : Finset String × List (String × SeriesModel))
    (kv : String × SeriesModel) : Finset String × List (String × SeriesModel) :=
  if indType kv.1 = PARAM then
    if canonicalName kv.1 ∈ acc.1 then (acc.1, dictInsert acc.2 kv.1 kv.2)
    else if limit ≤ acc.1.card then acc
    else (insert (canonicalName kv.1) acc.1, dictInsert acc.2 kv.1 kv.2)
  else acc

/-- The loop of `ParametersAnalysis.track` over one ingestion batch: returns
the updated tracked set and the admitted subset `res` that the source then
forwards to the Series store via `self.parameters.track(res)`. -/
def trackBatch (limit : Nat) (inds : Finset String)
    (data : List (String × SeriesModel)) :
    Finset String × List (String × SeriesModel) :=
  data.foldl (trackStep limit) (inds, [])

/-- The tracked set reached after a sequence of ingestion batches starting
from the given tracked set. -/
def trackIndicators (limit : Nat) (inds : Finset String)
    (batches : List (List (String × SeriesModel))) : Finset String :=
  batches.foldl (fun s data => (trackBatch limit s data).1) inds

/-- The ranking statistic `sort_key = 'l2'` of `get_track_summaries` (the
same literal is the fixed stat kind of `get_tracking`). -/
def sortKey : String := "l2"

/-- One iteration of the grouping loop of `get_track_summaries`
(lines 61-71): group the summary mean of each stored series by parameter
name, accumulating a stat-kind map per group (`data[name][ind] = mean`). -/
def groupStep (data : List (String × List (String × Int)))
    (kv : String × SeriesModel) : List (String × List (String × Int)) :=
  match dlookup data (paramName kv.1) with
  | some g => dictInsert data (paramName kv.1) (dictInsert g (statKind kv.1) kv.2.mean)
  | none => data ++ [(paramName kv.1, [(statKind kv.1, kv.2.mean)])]

/-- The grouping dict `data` of `get_track_summaries` built from the whole
tracking store. -/
def buildGroups (tracking : List (String × SeriesModel)) :
    List (String × List (String × Int)) :=
  tracking.foldl groupStep []

/-- The sorting key `k[sort_key]` of a retained group (always present there,
the default is never reached on filtered input). -/
def l2Of (g : List (String × Int)) : Int :=
  (dlookup g sortKey).getD 0

/-- `res = [v for k, v in data.items() if sort_key in v]`: the groups that
contain the ranking statistic. -/
def retainedGroups (tracking : List (String × SeriesModel)) :
    List (List (String × Int)) :=
  ((buildGroups tracking).map Prod.snd).filter (fun g => (dlookup g sortKey).isSome)

/-- `sorted_res = sorted(res, key=lambda k: k[sort_key])`: Python `sorted` is
stable ascending, as is `List.insertionSort`. -/
def sortedGroups (tracking : List (String × SeriesModel)) :
    List (List (String × Int)) :=
  List.insertionSort (fun g1 g2 => l2Of g1 ≤ l2Of g2) (retainedGroups tracking)

/-- One iteration of the pivot loop of `get_track_summaries` (lines 84-89):
on first encounter of a stat kind an entry with an empty value list is
created; on later encounters the group's mean is appended. -/
def pivotStep (ret : List (String × List Int)) (kv : String × Int) :
    List (String × List Int) :=
  match dlookup ret kv.1 with
  | some vs => dictInsert ret kv.1 (vs ++ [kv.2])
  | none => ret ++ [(kv.1, [])]

/-- The pivot of the sorted groups into one record per stat kind; a record
`{name: k, value: vs}` is embedded as the pair `(k, vs)`. -/
def pivot (gs : List (List (String × Int))) : List (String × List Int) :=
  gs.foldl (fun ret d => d.foldl pivotStep ret) []

/-- `ParametersAnalysis.get_track_summaries` (lines 60-90) as a state
transformer on the collection: the method reads `self.parameters.tracking`
and writes nothing back. -/
def get_track_summaries (c : Collection) : List (String × List Int) × Collection :=
  if buildGroups c.tracking = [] then ([], c)
  else (pivot (sortedGroups c.tracking), c)

/-- One detail record of `get_tracking`: the series detail dict with its
`name` field set; `mean` and the opaque rest come from the series. -/
structure TrackRecord where
  name : String
  mean : Int
  payload : Nat
deriving DecidableEq

/-- The detail record built for one stored series in `get_tracking`
(lines 100-102). -/
def recordOf (kv : String × SeriesModel) : TrackRecord :=
  { name := paramName kv.1, mean := kv.2.mean, payload := kv.2.payload }

/-- One iteration of the loop of `get_tracking` (lines 95-107) over a
tracking-store item: skip keys of other stat kinds; build the detail record;
when the series reports `is_smoothed_updated`, write its refreshed form back
into the tracking store under the same key and raise the dirty flag.  The
accumulator carries the records, the tracking store and the dirty flag; the
refreshed serialized form `s.to_data()` is the abstract `toData`. -/
def get_tracking_step (toData : SeriesModel → SeriesModel)
    (acc : List TrackRecord × List (String × SeriesModel) × Bool)
    (kv : String × SeriesModel) :
    List TrackRecord × List (String × SeriesModel) × Bool :=
  if statKind kv.1 ≠ sortKey then acc
  else if kv.2.isSmoothedUpdated then
    (acc.1 ++ [recordOf kv], dictInsert acc.2.1 kv.1 (toData kv.2), true)
  else
    (acc.1 ++ [recordOf kv], acc.2.1, acc.2.2)

/-- The loop of `get_tracking` over the whole tracking store, starting from
no records, the unmodified store, and a lowered dirty flag. -/
def get_tracking_core (toData : SeriesModel → SeriesModel)
    (tracking : List (String × SeriesModel)) :
    List TrackRecord × List (String × SeriesModel) × Bool :=
  tracking.foldl (get_tracking_step toData) ([], tracking, false)

/-- Longest common segment prefix of two segment lists. -/
def commonPfx : List String → List String → List String
  | a :: t1, b :: t2 => if a = b then a :: commonPfx t1 t2 else []
  | _, _ => []

/-- Modelled from the spec: `helper.remove_common_prefix(res, 'name')` (the
`helper` module is not among the given sources).  Per the spec it computes
the longest common dotted-segment prefix shared by every record's name and
strips it from each name in place; with no common prefix, or fewer than two
records, names are left unchanged. -/
def removeCommonPfx (recs : List TrackRecord) : List TrackRecord :=
  match recs with
  | [] => []
  | [r] => [r]
  | r :: rest =>
    let pfx := rest.foldl (fun p q => commonPfx p (splitKey q.name)) (splitKey r.name)
    if pfx = [] then r :: rest
    else (r :: rest).map
      (fun q => { q with name := joinDots ((splitKey q.name).drop pfx.length) })

/-- The full result of one `ParametersAnalysis.get_tracking` call: the
returned records, the collection state after the call, and how many times
`self.parameters.save()` ran during the call. -/
structure TrackingResult where
  records : List TrackRecord
  collection : Collection
  saves : Nat
deriving DecidableEq

/-- `ParametersAnalysis.get_tracking` (lines 92-118): process the store,
persist the collection once iff any series was refreshed, sort the records
descending by mean (`res.sort(key=..., reverse=True)` is stable; so is
`List.insertionSort` under the reversed comparison), and compress names. -/
def get_tracking (toData : SeriesModel → SeriesModel) (c : Collection) :
    TrackingResult :=
  { records := removeCommonPfx
      (List.insertionSort (fun a b : TrackRecord => b.mean ≤ a.mean)
        (get_tracking_core toData c.tracking).1),
    collection := { c with tracking := (get_tracking_core toData c.tracking).2.1 },
    saves := if (get_tracking_core toData c.tracking).2.2 then 1 else 0 }

/-- Modelled from the spec: the `labml_db` document store behind
`ParametersIndex`, `ParametersPreferencesIndex` and the two model classes
(`labml_db` is not among the given sources).  Per the spec this is a
key-value store: two run-id indices, keyed model payloads, and a fresh-key
supply; the preferences payload is outside this core, so only its keys are
kept. -/
structure Store where
  paramsIndex : List (String × Nat)
  prefsIndex : List (String × Nat)
  paramsModels : List (Nat × Collection)
  prefsModels : List Nat
  nextKey : Nat
deriving DecidableEq

/-- A freshly constructed `ParametersModel()`: empty tracked set, empty
tracking store. -/
def emptyCollection : Collection := ⟨∅, []⟩

/-- `ParametersAnalysis.get_or_create` (lines 119-135): look up the run's
index entry; when absent, create and save the collection and its preferences
entity and index both, returning the new collection; when present, load and
return the existing collection. -/
def get_or_create (st : Store) (run : String) : Store × Collection :=
  match dlookup st.paramsIndex run with
  | some k => (st, (dlookup st.paramsModels k).getD emptyCollection)
  | none =>
    let pkey := st.nextKey
    let ppkey := st.nextKey + 1
    ({ paramsIndex := dictInsert st.paramsIndex run pkey,
       prefsIndex := dictInsert st.prefsIndex run ppkey,
       paramsModels := dictInsert st.paramsModels pkey emptyCollection,
       prefsModels := st.prefsModels ++ [ppkey],
       nextKey := st.nextKey + 2 }, emptyCollection)

/-- The stream of stat kinds of the sorted groups, in iteration order of the
pivot loop. -/
def statStream (gs : List (List (String × Int))) : List String :=
  (gs.map (fun g => g.map Prod.fst)).flatten

/-- First-seen-order deduplication of a list (the key order of a dict built
by repeated insertion). -/
def firstSeen (l : List String) : List String :=
  l.foldl (fun acc x => if x ∈ acc then acc else acc ++ [x]) []

/-- The groups carrying the given stat kind, in order. -/
def groupsWith (stat : String) (gs : List (List (String × Int))) :
    List (List (String × Int)) :=
  gs.filter (fun g => (dlookup g stat).isSome)

/-- The means the given stat kind has in each group of the list, in order. -/
def valsOf (stat : String) (gs : List (List (String × Int))) : List Int :=
  gs.map (fun g => (dlookup g stat).getD 0)

/-- Whether one tracking-store entry is refreshed during `get_tracking`: its
stat kind is the fixed one and its series reports `is_smoothed_updated`. -/
def refreshedB (kv : String × SeriesModel) : Bool :=
  (statKind kv.1 == sortKey) && kv.2.isSmoothedUpdated

/-- The effect of one `get_tracking` call on one tracking-store entry:
refreshed entries are replaced by the series' `to_data()` form under the
same key, all others are untouched. -/
def refreshEntry (toData : SeriesModel → SeriesModel) (kv : String × SeriesModel) :
    String × SeriesModel :=
  if statKind kv.1 = sortKey ∧ kv.2.isSmoothedUpdated = true then (kv.1, toData kv.2)
  else kv

/-! ### Association-list dictionary lemmas -/

section DictLemmas

variable {κ α : Type} [DecidableEq κ]

theorem dlookup_dictInsert_self (d : List (κ × α)) (k : κ) (v : α) :
    dlookup (dictInsert d k v) k = some v := by
  induction d with
  | nil => simp [dictInsert, dlookup]
  | cons p rest ih =>
    obtain ⟨k', v'⟩ := p
    by_cases h : k' = k
    · simp [dictInsert, h, dlookup]
    · simp [dictInsert, h, dlookup, ih]

theorem dlookup_dictInsert_ne (d : List (κ × α)) (k k' : κ) (v : α) (h : k' ≠ k) :
    dlookup (dictInsert d k v) k' = dlookup d k' := by
  have hne : ¬ k = k' := fun h' => h h'.symm
  induction d with
  | nil => simp [dictInsert, dlookup, hne]
  | cons p rest ih =>
    obtain ⟨k'', v''⟩ := p
    by_cases h2 : k'' = k
    · subst h2
      simp [dictInsert, dlookup, hne]
    · simp only [dictInsert, if_neg h2, dlookup]
      by_cases h3 : k'' = k'
      · simp [h3]
      · simp [h3, ih]

theorem dlookup_eq_none_iff (d : List (κ × α)) (k : κ) :
    dlookup d k = none ↔ k ∉ d.map Prod.fst := by
  induction d with
  | nil => simp [dlookup]
  | cons p rest ih =>
    obtain ⟨k', v'⟩ := p
    by_cases h : k' = k
    · simp [dlookup, h]
    · have hne : ¬ k = k' := fun h' => h h'.symm
      simp [dlookup, h, ih, hne]

theorem dlookup_isSome_iff (d : List (κ × α)) (k : κ) :
    (dlookup d k).isSome = true ↔ k ∈ d.map Prod.fst := by
  rw [Option.isSome_iff_ne_none, ne_eq, dlookup_eq_none_iff, not_not]

theorem map_fst_dictInsert (d : List (κ × α)) (k : κ) (v : α) :
    (dictInsert d k v).map Prod.fst =
      if k ∈ d.map Prod.fst then d.map Prod.fst else d.map Prod.fst ++ [k] := by
  induction d with
  | nil => simp [dictInsert]
  | cons p rest ih =>
    obtain ⟨k', v'⟩ := p
    by_cases h : k' = k
    · simp [dictInsert, h]
    · have hne : ¬ k = k' := fun h' => h h'.symm
      simp only [dictInsert, if_neg h, List.map_cons, ih]
      by_cases h2 : k ∈ rest.map Prod.fst
      · simp [h2, hne]
      · simp [h2, hne]

theorem mem_dictInsert (d : List (κ × α)) (k : κ) (v : α) (p : κ × α)
    (h : p ∈ dictInsert d k v) : p = (k, v) ∨ p ∈ d := by
  induction d with
  | nil => simpa [dictInsert] using h
  | cons q rest ih =>
    obtain ⟨k', v'⟩ := q
    by_cases h2 : k' = k
    · simp only [dictInsert, if_pos h2, List.mem_cons] at h
      rcases h with h | h
      · exact Or.inl h
      · exact Or.inr (List.mem_cons_of_mem _ h)
    · simp only [dictInsert, if_neg h2, List.mem_cons] at h
      rcases h with h | h
      · exact Or.inr (by simp [h])
      · rcases ih h with h3 | h3
        · exact Or.inl h3
        · exact Or.inr (List.mem_cons_of_mem _ h3)

theorem nodup_map_fst_dictInsert (d : List (κ × α)) (k : κ) (v : α)
    (h : (d.map Prod.fst).Nodup) : ((dictInsert d k v).map Prod.fst).Nodup := by
  rw [map_fst_dictInsert]
  by_cases h2 : k ∈ d.map Prod.fst
  · simpa [h2] using h
  · simp [h2, List.nodup_append, h]

theorem dlookup_append_of_none (d e : List (κ × α)) (k : κ)
    (h : dlookup d k = none) : dlookup (d ++ e) k = dlookup e k := by
  induction d with
  | nil => simp
  | cons p rest ih =>
    obtain ⟨k', v'⟩ := p
    by_cases h2 : k' = k
    · simp [dlookup, h2] at h
    · simp only [dlookup, if_neg h2] at h
      simpa [dlookup, h2] using ih h

theorem dlookup_append_of_some (d e : List (κ × α)) (k : κ) (v : α)
    (h : dlookup d k = some v) : dlookup (d ++ e) k = some v := by
  induction d with
  | nil => simp [dlookup] at h
  | cons p rest ih =>
    obtain ⟨k', v'⟩ := p
    by_cases h2 : k' = k
    · simp only [dlookup, if_pos h2] at h
      simp [dlookup, h2, h]
    · simp only [dlookup, if_neg h2] at h
      simpa [dlookup, h2] using ih h

theorem dictInsert_append_of_not_mem (d e : List (κ × α)) (k : κ) (v : α)
    (h : k ∉ d.map Prod.fst) : dictInsert (d ++ e) k v = d ++ dictInsert e k v := by
  induction d with
  | nil => simp
  | cons p rest ih =>
    obtain ⟨k', v'⟩ := p
    simp only [List.map_cons, List.mem_cons, not_or] at h
    have hne : ¬ k' = k := fun h' => h.1 h'.symm
    simp [dictInsert, hne, ih h.2]

theorem dictInsert_cons_self (rest : List (κ × α)) (k : κ) (v w : α) :
    dictInsert ((k, w) :: rest) k v = (k, v) :: rest := by
  simp [dictInsert]

end DictLemmas

/-! ### Admission and forwarding (`ParametersAnalysis.track`) -/

theorem trackStep_card_le (limit : Nat) (acc : Finset String × List (String × SeriesModel))
    (kv : String × SeriesModel) (h : acc.1.card ≤ limit) :
    (trackStep limit acc kv).1.card ≤ limit := by
  unfold trackStep
  split_ifs with h1 h2 h3
  · exact h
  · exact h
  · simp only [not_le] at h3
    calc (insert (canonicalName kv.1) acc.1).card ≤ acc.1.card + 1 :=
          Finset.card_insert_le _ _
      _ ≤ limit := h3
  · exact h

theorem trackStep_indicators_mono (limit : Nat)
    (acc : Finset String × List (String × SeriesModel)) (kv : String × SeriesModel) :
    acc.1 ⊆ (trackStep limit acc kv).1 := by
  simp only [trackStep]
  split_ifs
  · exact Finset.Subset.refl _
  · exact Finset.Subset.refl _
  · exact Finset.subset_insert _ _
  · exact Finset.Subset.refl _

theorem trackFold_card_le (limit : Nat) (data : List (String × SeriesModel)) :
    ∀ acc : Finset String × List (String × SeriesModel), acc.1.card ≤ limit →
      (data.foldl (trackStep limit) acc).1.card ≤ limit := by
  induction data with
  | nil => intro acc h; simpa using h
  | cons kv rest ih =>
    intro acc h
    simpa using ih (trackStep limit acc kv) (trackStep_card_le limit acc kv h)

theorem trackBatch_card_le (limit : Nat) (inds : Finset String)
    (data : List (String × SeriesModel)) (h : inds.card ≤ limit) :
    (trackBatch limit inds data).1.card ≤ limit :=
  trackFold_card_le limit data (inds, []) h

theorem trackIndicators_card_le (limit : Nat)
    (batches : List (List (String × SeriesModel))) :
    ∀ inds : Finset String, inds.card ≤ limit →
      (trackIndicators limit inds batches).card ≤ limit := by
  induction batches with
  | nil => intro inds h; simpa [trackIndicators] using h
  | cons data rest ih =>
    intro inds h
    simpa [trackIndicators] using ih _ (trackBatch_card_le limit inds data h)

theorem trackStep_non_param (limit : Nat)
    (acc : Finset String × List (String × SeriesModel)) (kv : String × SeriesModel)
    (h : indType kv.1 ≠ PARAM) : trackStep limit acc kv = acc := by
  simp only [trackStep]
  simp [h]

theorem trackFold_dlookup_frame (limit : Nat) (ind : String) :
    ∀ (data : List (String × SeriesModel))
      (acc : Finset String × List (String × SeriesModel)),
      ind ∉ data.map Prod.fst →
      dlookup (data.foldl (trackStep limit) acc).2 ind = dlookup acc.2 ind := by
  intro data
  induction data with
  | nil => intro acc _; simp
  | cons kv rest ih =>
    intro acc h
    simp only [List.map_cons, List.mem_cons, not_or] at h
    rw [List.foldl_cons, ih _ h.2]
    simp only [trackStep]
    split_ifs
    · exact dlookup_dictInsert_ne _ _ _ _ h.1
    · rfl
    · exact dlookup_dictInsert_ne _ _ _ _ h.1
    · rfl

theorem trackFold_never_forwards_non_param (limit : Nat) (ind : String)
    (ht : indType ind ≠ PARAM) :
    ∀ (data : List (String × SeriesModel))
      (acc : Finset String × List (String × SeriesModel)),
      dlookup acc.2 ind = none →
      dlookup (data.foldl (trackStep limit) acc).2 ind = none := by
  intro data
  induction data with
  | nil => intro acc h; simpa using h
  | cons kv rest ih =>
    intro acc h
    rw [List.foldl_cons]
    refine ih _ ?_
    by_cases hkv : kv.1 = ind
    · rw [trackStep_non_param limit acc kv (hkv ▸ ht)]
      exact h
    · have hne : ind ≠ kv.1 := fun h' => hkv h'.symm
      simp only [trackStep]
      split_ifs
      · simpa [dlookup_dictInsert_ne _ _ _ _ hne] using h
      · exact h
      · simpa [dlookup_dictInsert_ne _ _ _ _ hne] using h
      · exact h

theorem trackFold_forwards_admitted (limit : Nat) (ind : String) (s : SeriesModel)
    (ht : indType ind = PARAM) :
    ∀ (data : List (String × SeriesModel))
      (acc : Finset String × List (String × SeriesModel)),
      (data.map Prod.fst).Nodup → dlookup data ind = some s →
      canonicalName ind ∈ acc.1 →
      dlookup (data.foldl (trackStep limit) acc).2 ind = some s := by
  intro data
  induction data with
  | nil => intro acc _ h _; simp [dlookup] at h
  | cons kv rest ih =>
    intro acc hnd hl hmem
    obtain ⟨k, v⟩ := kv
    simp only [List.map_cons, List.nodup_cons] at hnd
    by_cases hk : k = ind
    · subst hk
      have hv : v = s := by simpa [dlookup] using hl
      subst hv
      rw [List.foldl_cons, trackFold_dlookup_frame limit k rest _ hnd.1]
      show dlookup (trackStep limit acc (k, v)).2 k = some v
      simp only [trackStep, ht, if_pos rfl, if_pos hmem]
      exact dlookup_dictInsert_self _ _ _
    · simp only [dlookup, if_neg hk] at hl
      rw [List.foldl_cons]
      exact ih _ hnd.2 hl (trackStep_indicators_mono limit acc (k, v) hmem)

/-- C1: starting from an empty tracked set, no ingestion sequence makes the
tracked set exceed `INDICATOR_LIMIT`; and when exactly one admission slot
remains, a batch offering two keys with distinct new canonical identities
admits exactly the first of the two identities. -/
theorem track_cap_invariant (limit : Nat)
    (batches : List (List (String × SeriesModel)))
    (inds : Finset String) (k1 k2 : String) (s1 s2 : SeriesModel)
    (h1 : indType k1 = PARAM) (h2 : indType k2 = PARAM)
    (hn1 : canonicalName k1 ∉ inds) (hn2 : canonicalName k2 ∉ inds)
    (hne : canonicalName k1 ≠ canonicalName k2)
    (hslot : inds.card + 1 = limit) :
    (trackIndicators limit ∅ batches).card ≤ limit ∧
    ((trackBatch limit inds [(k1, s1), (k2, s2)]).1 = insert (canonicalName k1) inds ∧
     canonicalName k2 ∉ (trackBatch limit inds [(k1, s1), (k2, s2)]).1) := by
  have hcard : ¬ limit ≤ inds.card := by omega
  have e1 : trackStep limit (inds, []) (k1, s1) =
      (insert (canonicalName k1) inds, [(k1, s1)]) := by
    simp [trackStep, h1, hn1, hcard, dictInsert]
  have hn2' : canonicalName k2 ∉ insert (canonicalName k1) inds := by
    simp only [Finset.mem_insert, not_or]
    exact ⟨fun e => hne e.symm, hn2⟩
  have hcard2 : limit ≤ (insert (canonicalName k1) inds).card := by
    rw [Finset.card_insert_of_not_mem hn1]; omega
  have e2 : trackStep limit (insert (canonicalName k1) inds, [(k1, s1)]) (k2, s2) =
      (insert (canonicalName k1) inds, [(k1, s1)]) := by
    simp [trackStep, h2, hn2', hcard2]
  have eb : trackBatch limit inds [(k1, s1), (k2, s2)] =
      (insert (canonicalName k1) inds, [(k1, s1)]) := by
    simp only [trackBatch, List.foldl_cons, List.foldl_nil, e1, e2]
  refine ⟨trackIndicators_card_le limit batches ∅ (by simp), ?_, ?_⟩
  · rw [eb]
  · rw [eb]; exact hn2'

theorem track_cap_invariant_witness :
    (indType "param.b.l2" = PARAM) ∧ (indType "param.c.l2" = PARAM) ∧
    canonicalName "param.b.l2" ∉ ({"param.x"} : Finset String) ∧
    canonicalName "param.c.l2" ∉ ({"param.x"} : Finset String) ∧
    canonicalName "param.b.l2" ≠ canonicalName "param.c.l2" ∧
    ({"param.x"} : Finset String).card + 1 = 2 ∧
    ((trackIndicators 2 ∅
        [[("param.a.l2", ⟨0, false, 0⟩)],
         [("param.b.l2", ⟨0, false, 0⟩), ("param.c.l2", ⟨0, false, 0⟩)]]).card ≤ 2 ∧
     ((trackBatch 2 {"param.x"}
         [("param.b.l2", ⟨0, false, 0⟩), ("param.c.l2", ⟨0, false, 0⟩)]).1 =
        insert (canonicalName "param.b.l2") {"param.x"} ∧
      canonicalName "param.c.l2" ∉
        (trackBatch 2 {"param.x"}
          [("param.b.l2", ⟨0, false, 0⟩), ("param.c.l2", ⟨0, false, 0⟩)]).1)) :=
  ⟨by decide, by decide, by decide, by decide, by decide, by decide,
   track_cap_invariant 2 _ {"param.x"} "param.b.l2" "param.c.l2" _ _
     (by decide) (by decide) (by decide) (by decide) (by decide) (by decide)⟩

/-- C4: a key whose canonical identity is already tracked is always included,
with its unchanged payload, in the forwarded subset — also when the cap is
already reached through other identities (no cardinality hypothesis). -/
theorem admitted_identity_always_forwarded (limit : Nat) (inds : Finset String)
    (data : List (String × SeriesModel)) (ind : String) (s : SeriesModel)
    (hnd : (data.map Prod.fst).Nodup) (hl : dlookup data ind = some s)
    (ht : indType ind = PARAM) (hmem : canonicalName ind ∈ inds) :
    dlookup (trackBatch limit inds data).2 ind = some s :=
  trackFold_forwards_admitted limit ind s ht data (inds, []) hnd hl hmem

theorem admitted_identity_always_forwarded_witness :
    (([("param.z.l2", (⟨4, false, 0⟩ : SeriesModel)), ("param.new.l2", ⟨5, false, 0⟩)].map
        Prod.fst).Nodup) ∧
    dlookup [("param.z.l2", (⟨4, false, 0⟩ : SeriesModel)), ("param.new.l2", ⟨5, false, 0⟩)]
      "param.z.l2" = some ⟨4, false, 0⟩ ∧
    indType "param.z.l2" = PARAM ∧
    canonicalName "param.z.l2" ∈ ({"param.a", "param.z"} : Finset String) ∧
    dlookup (trackBatch 1 {"param.a", "param.z"}
        [("param.z.l2", ⟨4, false, 0⟩), ("param.new.l2", ⟨5, false, 0⟩)]).2
      "param.z.l2" = some ⟨4, false, 0⟩ :=
  ⟨by decide, by decide, by decide, by decide,
   admitted_identity_always_forwarded 1 {"param.a", "param.z"} _ "param.z.l2" _
     (by decide) (by decide) (by decide) (by decide)⟩

/-- C5: a key whose first dotted segment is not the parameter discriminator
is inert: deleting it from the batch leaves the result of `track` (both the
tracked set and the forwarded subset) unchanged, and the key is never in the
forwarded subset. -/
theorem non_param_keys_ignored (limit : Nat) (inds : Finset String)
    (l1 l2 : List (String × SeriesModel)) (ind : String) (s : SeriesModel)
    (ht : indType ind ≠ PARAM) :
    trackBatch limit inds (l1 ++ (ind, s) :: l2) = trackBatch limit inds (l1 ++ l2) ∧
    dlookup (trackBatch limit inds (l1 ++ (ind, s) :: l2)).2 ind = none := by
  constructor
  · simp only [trackBatch, List.foldl_append, List.foldl_cons]
    rw [trackStep_non_param limit _ (ind, s) ht]
  · exact trackFold_never_forwards_non_param limit ind ht _ (inds, []) rfl

theorem non_param_keys_ignored_witness :
    indType "loss.c.l2" ≠ PARAM ∧
    (trackBatch 3 ∅
        ([("param.a.l2", (⟨1, false, 0⟩ : SeriesModel))] ++
          ("loss.c.l2", (⟨2, false, 0⟩ : SeriesModel)) :: [("param.b.l2", ⟨3, false, 0⟩)]) =
      trackBatch 3 ∅
        ([("param.a.l2", ⟨1, false, 0⟩)] ++ [("param.b.l2", ⟨3, false, 0⟩)]) ∧
     dlookup (trackBatch 3 ∅
        ([("param.a.l2", ⟨1, false, 0⟩)] ++
          ("loss.c.l2", (⟨2, false, 0⟩ : SeriesModel)) :: [("param.b.l2", ⟨3, false, 0⟩)])).2
       "loss.c.l2" = none) :=
  ⟨by decide,
   non_param_keys_ignored 3 ∅ [("param.a.l2", ⟨1, false, 0⟩)]
     [("param.b.l2", ⟨3, false, 0⟩)] "loss.c.l2" ⟨2, false, 0⟩ (by decide)⟩

/-- C3 counterexample: the key `"param.l2"` lacks the expected
`type.path....stat` segment structure (it has no path segments), yet `track`
does not reject it: its truncated canonical identity `"param"` is counted
against the tracked set and the key is forwarded to the Series store. -/
theorem malformed_key_not_rejected_cex :
    (trackBatch 1 ∅ [("param.l2", ⟨0, false, 0⟩)]).1 = {"param"} ∧
    (trackBatch 1 ∅ [("param.l2", ⟨0, false, 0⟩)]).2 =
      [("param.l2", ⟨0, false, 0⟩)] := by decide

/-- C3 amended: `track` rejects a key at classification time only through the
type check on its first dotted segment — such keys are neither counted nor
forwarded and no error is raised; a key lacking path segments whose first
segment is the parameter discriminator (such as `"param.l2"`) is not
rejected: its truncated canonical identity is counted against the tracked
set and the key is forwarded. -/
theorem malformed_key_classification_amended (limit : Nat) (inds : Finset String)
    (l1 l2 : List (String × SeriesModel)) (ind : String) (s t : SeriesModel)
    (ht : indType ind ≠ PARAM) (hpos : 1 ≤ limit) :
    trackBatch limit inds (l1 ++ (ind, s) :: l2) = trackBatch limit inds (l1 ++ l2) ∧
    dlookup (trackBatch limit inds (l1 ++ (ind, s) :: l2)).2 ind = none ∧
    trackBatch limit ∅ [("param.l2", t)] = ({"param"}, [("param.l2", t)]) := by
  refine ⟨?_, ?_, ?_⟩
  · simp only [trackBatch, List.foldl_append, List.foldl_cons]
    rw [trackStep_non_param limit _ (ind, s) ht]
  · exact trackFold_never_forwards_non_param limit ind ht _ (inds, []) rfl
  · show trackStep limit (∅, []) ("param.l2", t) = ({"param"}, [("param.l2", t)])
    have e1 : indType "param.l2" = PARAM := by decide
    have e2 : canonicalName "param.l2" = "param" := by decide
    have e3 : ¬ limit ≤ (∅ : Finset String).card := by
      simp only [Finset.card_empty]; omega
    simp [trackStep, e1, e2, e3, dictInsert]
    omega

theorem malformed_key_classification_amended_witness :
    indType "loss.c.l2" ≠ PARAM ∧ 1 ≤ 2 ∧
    (trackBatch 2 ∅
        ([] ++ ("loss.c.l2", (⟨2, false, 0⟩ : SeriesModel)) :: [("param.a.l2", ⟨1, false, 0⟩)]) =
      trackBatch 2 ∅ ([] ++ [("param.a.l2", ⟨1, false, 0⟩)]) ∧
     dlookup (trackBatch 2 ∅
        ([] ++ ("loss.c.l2", (⟨2, false, 0⟩ : SeriesModel)) :: [("param.a.l2", ⟨1, false, 0⟩)])).2
       "loss.c.l2" = none ∧
     trackBatch 2 ∅ [("param.l2", (⟨7, true, 3⟩ : SeriesModel))] =
       ({"param"}, [("param.l2", ⟨7, true, 3⟩)])) :=
  ⟨by decide, by decide,
   malformed_key_classification_amended 2 ∅ [] [("param.a.l2", ⟨1, false, 0⟩)]
     "loss.c.l2" ⟨2, false, 0⟩ ⟨7, true, 3⟩ (by decide) (by decide)⟩

/-! ### Summary aggregator (`get_track_summaries`) -/

theorem statStream_cons (g : List (String × Int)) (rest : List (List (String × Int))) :
    statStream (g :: rest) = g.map Prod.fst ++ statStream rest := by
  simp [statStream]

theorem map_fst_pivotStep (ret : List (String × List Int)) (kv : String × Int) :
    (pivotStep ret kv).map Prod.fst =
      if kv.1 ∈ ret.map Prod.fst then ret.map Prod.fst
      else ret.map Prod.fst ++ [kv.1] := by
  unfold pivotStep
  cases h : dlookup ret kv.1 with
  | none =>
    have hm : kv.1 ∉ ret.map Prod.fst := (dlookup_eq_none_iff ret kv.1).mp h
    simp [hm]
  | some vs =>
    have hm : kv.1 ∈ ret.map Prod.fst := by
      rw [← dlookup_isSome_iff, h]; rfl
    simp [map_fst_dictInsert, hm]

theorem map_fst_groupFold (d : List (String × Int)) :
    ∀ ret : List (String × List Int),
      (d.foldl pivotStep ret).map Prod.fst =
        (d.map Prod.fst).foldl (fun acc x => if x ∈ acc then acc else acc ++ [x])
          (ret.map Prod.fst) := by
  induction d with
  | nil => intro ret; simp
  | cons kv rest ih =>
    intro ret
    simp only [List.foldl_cons, List.map_cons, ih, map_fst_pivotStep]

theorem map_fst_pivotFold (gs : List (List (String × Int))) :
    ∀ ret : List (String × List Int),
      ((gs.foldl (fun r d => d.foldl pivotStep r) ret).map Prod.fst) =
        (statStream gs).foldl (fun acc x => if x ∈ acc then acc else acc ++ [x])
          (ret.map Prod.fst) := by
  induction gs with
  | nil => intro ret; simp [statStream]
  | cons g rest ih =>
    intro ret
    rw [List.foldl_cons, ih, statStream_cons, List.foldl_append, map_fst_groupFold]

theorem map_fst_pivot (gs : List (List (String × Int))) :
    (pivot gs).map Prod.fst = firstSeen (statStream gs) := by
  rw [pivot, map_fst_pivotFold gs []]
  rfl

theorem dlookup_pivotStep_self (ret : List (String × List Int)) (kv : String × Int) :
    dlookup (pivotStep ret kv) kv.1 =
      match dlookup ret kv.1 with
      | some vs => some (vs ++ [kv.2])
      | none => some [] := by
  unfold pivotStep
  cases h : dlookup ret kv.1 with
  | none =>
    rw [dlookup_append_of_none _ _ _ h]
    simp [dlookup]
  | some vs => simp [dlookup_dictInsert_self]

theorem dlookup_pivotStep_ne (ret : List (String × List Int)) (kv : String × Int)
    (k : String) (h : k ≠ kv.1) :
    dlookup (pivotStep ret kv) k = dlookup ret k := by
  unfold pivotStep
  cases h1 : dlookup ret kv.1 with
  | none =>
    cases h2 : dlookup ret k with
    | none =>
      rw [dlookup_append_of_none _ _ _ h2]
      have hne : ¬ kv.1 = k := fun e => h e.symm
      simp [dlookup, hne]
    | some vs => rw [dlookup_append_of_some _ _ _ _ h2]
  | some vs => exact dlookup_dictInsert_ne _ _ _ _ h

theorem dlookup_groupFold (d : List (String × Int)) :
    ∀ (ret : List (String × List Int)) (stat : String),
      (d.map Prod.fst).Nodup →
      dlookup (d.foldl pivotStep ret) stat =
        match dlookup ret stat, dlookup d stat with
        | some vs, some v => some (vs ++ [v])
        | some vs, none => some vs
        | none, some _ => some []
        | none, none => none := by
  induction d with
  | nil =>
    intro ret stat _
    cases h : dlookup ret stat <;> simp [dlookup, h]
  | cons kv rest ih =>
    intro ret stat hnd
    obtain ⟨k, v⟩ := kv
    simp only [List.map_cons, List.nodup_cons] at hnd
    rw [List.foldl_cons]
    by_cases hk : stat = k
    · subst hk
      have hrest : dlookup rest stat = none := (dlookup_eq_none_iff rest stat).mpr hnd.1
      rw [ih _ stat hnd.2, dlookup_pivotStep_self, hrest]
      have hd : dlookup ((stat, v) :: rest) stat = some v := by simp [dlookup]
      rw [hd]
      cases h : dlookup ret stat <;> simp
    · have hne : ¬ k = stat := fun e => hk e.symm
      have hd : dlookup ((k, v) :: rest) stat = dlookup rest stat := by
        simp [dlookup, hne]
      rw [ih _ stat hnd.2, dlookup_pivotStep_ne _ _ _ hk, hd]

theorem dlookup_pivotFold (gs : List (List (String × Int))) :
    ∀ (ret : List (String × List Int)) (stat : String),
      (∀ g ∈ gs, (g.map Prod.fst).Nodup) →
      dlookup (gs.foldl (fun r d => d.foldl pivotStep r) ret) stat =
        match dlookup ret stat with
        | some vs => some (vs ++ valsOf stat (groupsWith stat gs))
        | none =>
          if groupsWith stat gs = [] then none
          else some (valsOf stat (groupsWith stat gs).tail) := by
  induction gs with
  | nil =>
    intro ret stat _
    cases h : dlookup ret stat <;> simp [h, groupsWith, valsOf]
  | cons g rest ih =>
    intro ret stat hnd
    rw [List.foldl_cons,
      ih _ stat (fun g' hg' => hnd g' (List.mem_cons_of_mem _ hg')),
      dlookup_groupFold g ret stat (hnd g (List.mem_cons_self _ _))]
    cases h1 : dlookup ret stat with
    | some vs =>
      cases h2 : dlookup g stat with
      | some v =>
        have hf : groupsWith stat (g :: rest) = g :: groupsWith stat rest := by
          simp [groupsWith, List.filter_cons, h2]
        simp [hf, valsOf, h2]
      | none =>
        have hf : groupsWith stat (g :: rest) = groupsWith stat rest := by
          simp [groupsWith, List.filter_cons, h2]
        simp [hf]
    | none =>
      cases h2 : dlookup g stat with
      | some v =>
        have hf : groupsWith stat (g :: rest) = g :: groupsWith stat rest := by
          simp [groupsWith, List.filter_cons, h2]
        simp [hf, valsOf]
      | none =>
        have hf : groupsWith stat (g :: rest) = groupsWith stat rest := by
          simp [groupsWith, List.filter_cons, h2]
        simp [hf]

theorem dlookup_mem {κ α : Type} [DecidableEq κ] (d : List (κ × α)) (k : κ) (v : α)
    (h : dlookup d k = some v) : (k, v) ∈ d := by
  induction d with
  | nil => simp [dlookup] at h
  | cons p rest ih =>
    obtain ⟨k', v'⟩ := p
    by_cases h2 : k' = k
    · subst h2
      have hv : v' = v := by simpa [dlookup] using h
      subst hv
      exact List.mem_cons_self _ _
    · simp only [dlookup, if_neg h2] at h
      exact List.mem_cons_of_mem _ (ih h)

theorem groupFold_nodup_vals (tracking : List (String × SeriesModel)) :
    ∀ data : List (String × List (String × Int)),
      (∀ p ∈ data, (p.2.map Prod.fst).Nodup) →
      ∀ p ∈ tracking.foldl groupStep data, (p.2.map Prod.fst).Nodup := by
  induction tracking with
  | nil => intro data h p hp; exact h p hp
  | cons kv rest ih =>
    intro data h
    rw [List.foldl_cons]
    refine ih _ ?_
    intro p hp
    unfold groupStep at hp
    cases hg : dlookup data (paramName kv.1) with
    | some g =>
      rw [hg] at hp
      rcases mem_dictInsert _ _ _ _ hp with h2 | h2
      · subst h2
        exact nodup_map_fst_dictInsert _ _ _ (h _ (dlookup_mem _ _ _ hg))
      · exact h _ h2
    | none =>
      rw [hg] at hp
      rcases List.mem_append.mp hp with h2 | h2
      · exact h _ h2
      · simp only [List.mem_singleton] at h2
        subst h2
        simp

theorem buildGroups_nodup_vals (tracking : List (String × SeriesModel)) :
    ∀ p ∈ buildGroups tracking, (p.2.map Prod.fst).Nodup :=
  groupFold_nodup_vals tracking [] (by simp)

theorem sortedGroups_mem (tracking : List (String × SeriesModel))
    (g : List (String × Int)) (h : g ∈ sortedGroups tracking) :
    (dlookup g sortKey).isSome = true ∧ (g.map Prod.fst).Nodup := by
  rw [sortedGroups, (List.perm_insertionSort _ _).mem_iff, retainedGroups,
    List.mem_filter] at h
  obtain ⟨hmem, hl2⟩ := h
  refine ⟨hl2, ?_⟩
  rw [List.mem_map] at hmem
  obtain ⟨p, hp, hpe⟩ := hmem
  exact hpe ▸ buildGroups_nodup_vals tracking p hp

theorem sortedGroups_sorted (tracking : List (String × SeriesModel)) :
    (sortedGroups tracking).Pairwise (fun g1 g2 => l2Of g1 ≤ l2Of g2) := by
  haveI : IsTotal (List (String × Int)) (fun g1 g2 => l2Of g1 ≤ l2Of g2) :=
    ⟨fun a b => le_total (l2Of a) (l2Of b)⟩
  haveI : IsTrans (List (String × Int)) (fun g1 g2 => l2Of g1 ≤ l2Of g2) :=
    ⟨fun a b c h1 h2 => le_trans h1 h2⟩
  exact List.sorted_insertionSort _ _

theorem get_track_summaries_fst (c : Collection) :
    (get_track_summaries c).1 = pivot (sortedGroups c.tracking) := by
  by_cases h : buildGroups c.tracking = []
  · simp [get_track_summaries, h, sortedGroups, retainedGroups, pivot]
  · simp [get_track_summaries, h]

theorem statStream_to_groupsWith (gs : List (List (String × Int))) (stat : String)
    (h : stat ∈ statStream gs) : groupsWith stat gs ≠ [] := by
  rw [statStream, List.mem_flatten] at h
  obtain ⟨l, hl, hstat⟩ := h
  rw [List.mem_map] at hl
  obtain ⟨g, hg, hge⟩ := hl
  subst hge
  have hsome : (dlookup g stat).isSome = true := by
    rw [dlookup_isSome_iff]; exact hstat
  have : g ∈ groupsWith stat gs := by
    rw [groupsWith, List.mem_filter]; exact ⟨hg, hsome⟩
  exact List.ne_nil_of_mem this

/-- C2: in `get_track_summaries` the output records appear in first-seen
order of stat kinds across the l2-sorted groups; the groups are sorted
ascending by their l2 value; each stat kind's value sequence is exactly the
means of the second and subsequent groups carrying that stat kind, in that
sorted order — the first such group's mean is omitted — so each record has
one fewer value than the number of groups carrying its stat kind. -/
theorem get_track_summaries_drops_first_group (c : Collection) :
    ((get_track_summaries c).1.map Prod.fst =
      firstSeen (statStream (sortedGroups c.tracking))) ∧
    (sortedGroups c.tracking).Pairwise (fun g1 g2 => l2Of g1 ≤ l2Of g2) ∧
    (∀ stat, stat ∈ statStream (sortedGroups c.tracking) →
      dlookup (get_track_summaries c).1 stat =
        some (valsOf stat (groupsWith stat (sortedGroups c.tracking)).tail)) ∧
    (∀ stat, stat ∈ statStream (sortedGroups c.tracking) →
      ∀ vs, dlookup (get_track_summaries c).1 stat = some vs →
        vs.length + 1 = (groupsWith stat (sortedGroups c.tracking)).length) := by
  have hnd : ∀ g ∈ sortedGroups c.tracking, (g.map Prod.fst).Nodup :=
    fun g hg => (sortedGroups_mem c.tracking g hg).2
  have hcore : ∀ stat, stat ∈ statStream (sortedGroups c.tracking) →
      dlookup (get_track_summaries c).1 stat =
        some (valsOf stat (groupsWith stat (sortedGroups c.tracking)).tail) := by
    intro stat hstat
    rw [get_track_summaries_fst, pivot,
      dlookup_pivotFold (sortedGroups c.tracking) [] stat hnd]
    have hne : groupsWith stat (sortedGroups c.tracking) ≠ [] :=
      statStream_to_groupsWith _ stat hstat
    simp [dlookup, hne]
  refine ⟨?_, sortedGroups_sorted c.tracking, hcore, ?_⟩
  · rw [get_track_summaries_fst, map_fst_pivot]
  · intro stat hstat vs hvs
    rw [hcore stat hstat] at hvs
    simp only [Option.some.injEq] at hvs
    have hne : groupsWith stat (sortedGroups c.tracking) ≠ [] :=
      statStream_to_groupsWith _ stat hstat
    cases hg : groupsWith stat (sortedGroups c.tracking) with
    | nil => exact absurd hg hne
    | cons g0 grest => simp [← hvs, hg, valsOf]

theorem get_track_summaries_drops_first_group_witness :
    ("l2" ∈ statStream (sortedGroups
        [("param.a.l2", (⟨3, false, 1⟩ : SeriesModel)), ("param.b.l2", ⟨1, true, 2⟩),
         ("param.a.mean", ⟨7, false, 3⟩)])) ∧
    dlookup (get_track_summaries
        ⟨∅, [("param.a.l2", ⟨3, false, 1⟩), ("param.b.l2", ⟨1, true, 2⟩),
             ("param.a.mean", ⟨7, false, 3⟩)]⟩).1 "l2" =
      some (valsOf "l2" (groupsWith "l2" (sortedGroups
        [("param.a.l2", ⟨3, false, 1⟩), ("param.b.l2", ⟨1, true, 2⟩),
         ("param.a.mean", ⟨7, false, 3⟩)])).tail) :=
  ⟨by decide,
   (get_track_summaries_drops_first_group
      ⟨∅, [("param.a.l2", ⟨3, false, 1⟩), ("param.b.l2", ⟨1, true, 2⟩),
           ("param.a.mean", ⟨7, false, 3⟩)]⟩).2.2.1 "l2" (by decide)⟩

/-- C6: every value in a summary record comes from a group that carries the
ranking statistic l2 (groups without it are dropped entirely); when no group
carries it — in particular on an empty tracking store — the result is the
empty sequence. -/
theorem summaries_require_ranking_stat (c : Collection) :
    (c.tracking = [] → (get_track_summaries c).1 = []) ∧
    (retainedGroups c.tracking = [] → (get_track_summaries c).1 = []) ∧
    (∀ stat vs, dlookup (get_track_summaries c).1 stat = some vs →
      ∀ v ∈ vs, ∃ g, g ∈ sortedGroups c.tracking ∧
        (dlookup g sortKey).isSome = true ∧ dlookup g stat = some v) := by
  refine ⟨?_, ?_, ?_⟩
  · intro h
    simp [get_track_summaries, h, buildGroups]
  · intro h
    rw [get_track_summaries_fst, sortedGroups, h]
    rfl
  · intro stat vs hvs v hv
    have hnd : ∀ g ∈ sortedGroups c.tracking, (g.map Prod.fst).Nodup :=
      fun g hg => (sortedGroups_mem c.tracking g hg).2
    rw [get_track_summaries_fst, pivot,
      dlookup_pivotFold (sortedGroups c.tracking) [] stat hnd] at hvs
    simp only [dlookup] at hvs
    by_cases hne : groupsWith stat (sortedGroups c.tracking) = []
    · simp [hne] at hvs
    · rw [if_neg hne] at hvs
      simp only [Option.some.injEq] at hvs
      rw [← hvs, valsOf, List.mem_map] at hv
      obtain ⟨g, hg, hge⟩ := hv
      have hgmem : g ∈ groupsWith stat (sortedGroups c.tracking) :=
        List.mem_of_mem_tail hg
      rw [groupsWith, List.mem_filter] at hgmem
      refine ⟨g, hgmem.1, (sortedGroups_mem c.tracking g hgmem.1).1, ?_⟩
      cases hgv : dlookup g stat with
      | none => rw [hgv] at hgmem; simp at hgmem
      | some v' =>
        rw [hgv] at hge
        simp only [Option.getD_some] at hge
        rw [hge]

theorem summaries_require_ranking_stat_witness :
    retainedGroups [("param.a.mean", (⟨5, false, 0⟩ : SeriesModel))] = [] ∧
    (get_track_summaries ⟨∅, [("param.a.mean", ⟨5, false, 0⟩)]⟩).1 = [] :=
  ⟨by decide,
   (summaries_require_ranking_stat
      ⟨∅, [("param.a.mean", ⟨5, false, 0⟩)]⟩).2.1 (by decide)⟩

/-! ### Tracking detail builder (`get_tracking`) -/

theorem core_res (toData : SeriesModel → SeriesModel) :
    ∀ (rest : List (String × SeriesModel))
      (acc : List TrackRecord × List (String × SeriesModel) × Bool),
      (rest.foldl (get_tracking_step toData) acc).1 =
        acc.1 ++ rest.filterMap
          (fun kv => if statKind kv.1 = sortKey then some (recordOf kv) else none) := by
  intro rest
  induction rest with
  | nil => intro acc; simp
  | cons kv rest ih =>
    intro acc
    rw [List.foldl_cons, ih]
    by_cases h : statKind kv.1 = sortKey
    · by_cases h2 : kv.2.isSmoothedUpdated
      · simp [get_tracking_step, h, h2, List.filterMap_cons]
      · simp [get_tracking_step, h, h2, List.filterMap_cons]
    · simp [get_tracking_step, h, List.filterMap_cons]

theorem core_upd (toData : SeriesModel → SeriesModel) :
    ∀ (rest : List (String × SeriesModel))
      (acc : List TrackRecord × List (String × SeriesModel) × Bool),
      (rest.foldl (get_tracking_step toData) acc).2.2 =
        (acc.2.2 || rest.any refreshedB) := by
  intro rest
  induction rest with
  | nil => intro acc; simp
  | cons kv rest ih =>
    intro acc
    rw [List.foldl_cons, ih]
    by_cases h : statKind kv.1 = sortKey
    · by_cases h2 : kv.2.isSmoothedUpdated
      · simp [get_tracking_step, h, h2, refreshedB]
      · simp [get_tracking_step, h, h2, refreshedB]
    · have hb : (statKind kv.1 == sortKey) = false := by simpa using h
      simp [get_tracking_step, h, refreshedB, hb]

theorem map_fst_map_refreshEntry (toData : SeriesModel → SeriesModel)
    (l : List (String × SeriesModel)) :
    (l.map (refreshEntry toData)).map Prod.fst = l.map Prod.fst := by
  induction l with
  | nil => rfl
  | cons kv rest ih =>
    simp only [List.map_cons, ih, refreshEntry]
    split_ifs <;> rfl

theorem core_trk (toData : SeriesModel → SeriesModel) :
    ∀ (rest pref : List (String × SeriesModel)) (res0 : List TrackRecord) (upd0 : Bool),
      ((pref ++ rest).map Prod.fst).Nodup →
      (rest.foldl (get_tracking_step toData)
          (res0, pref.map (refreshEntry toData) ++ rest, upd0)).2.1 =
        (pref ++ rest).map (refreshEntry toData) := by
  intro rest
  induction rest with
  | nil => intro pref res0 upd0 _; simp
  | cons kv rest ih =>
    intro pref res0 upd0 hnd
    have hassoc : pref ++ kv :: rest = (pref ++ [kv]) ++ rest := by simp
    have hnd' : (((pref ++ [kv]) ++ rest).map Prod.fst).Nodup := by
      rw [← hassoc]; exact hnd
    rw [List.foldl_cons]
    by_cases h : statKind kv.1 = sortKey
    · by_cases h2 : kv.2.isSmoothedUpdated
      · have hf : refreshEntry toData kv = (kv.1, toData kv.2) := by
          simp [refreshEntry, h, h2]
        have hnotin : kv.1 ∉ (pref.map (refreshEntry toData)).map Prod.fst := by
          rw [map_fst_map_refreshEntry]
          have hnd2 : (pref.map Prod.fst ++ kv.1 :: rest.map Prod.fst).Nodup := by
            simpa using hnd
          have hdisj := (List.nodup_append.mp hnd2).2.2
          intro hmem
          exact hdisj hmem (List.mem_cons_self _ _)
        have hstep : get_tracking_step toData
            (res0, pref.map (refreshEntry toData) ++ kv :: rest, upd0) kv =
            (res0 ++ [recordOf kv],
             (pref ++ [kv]).map (refreshEntry toData) ++ rest, true) := by
          simp only [get_tracking_step, h, h2]
          obtain ⟨k, v⟩ := kv
          simp only [ne_eq, not_true_eq_false, if_false, if_true, h]
          rw [dictInsert_append_of_not_mem _ _ _ _ hnotin, dictInsert_cons_self]
          simp [hf]
        rw [hstep, ih (pref ++ [kv]) _ _ hnd', hassoc]
      · have hf : refreshEntry toData kv = kv := by
          simp [refreshEntry, h2]
        have hstep : get_tracking_step toData
            (res0, pref.map (refreshEntry toData) ++ kv :: rest, upd0) kv =
            (res0 ++ [recordOf kv],
             (pref ++ [kv]).map (refreshEntry toData) ++ rest, upd0) := by
          simp only [get_tracking_step, h, h2]
          simp [hf]
        rw [hstep, ih (pref ++ [kv]) _ _ hnd', hassoc]
    · have hf : refreshEntry toData kv = kv := by
        simp [refreshEntry, h]
      have hstep : get_tracking_step toData
          (res0, pref.map (refreshEntry toData) ++ kv :: rest, upd0) kv =
          (res0, (pref ++ [kv]).map (refreshEntry toData) ++ rest, upd0) := by
        simp only [get_tracking_step, if_pos h]
        simp [hf]
      rw [hstep, ih (pref ++ [kv]) _ _ hnd', hassoc]

theorem get_tracking_core_trk (toData : SeriesModel → SeriesModel)
    (tracking : List (String × SeriesModel))
    (hnd : (tracking.map Prod.fst).Nodup) :
    (get_tracking_core toData tracking).2.1 = tracking.map (refreshEntry toData) := by
  have := core_trk toData tracking [] [] false (by simpa using hnd)
  simpa [get_tracking_core] using this

theorem filterMap_statKey (rest : List (String × SeriesModel)) :
    rest.filterMap
        (fun kv => if statKind kv.1 = sortKey then some (recordOf kv) else none) =
      (rest.filter (fun kv => statKind kv.1 == sortKey)).map recordOf := by
  induction rest with
  | nil => rfl
  | cons kv rest ih =>
    by_cases h : statKind kv.1 = sortKey
    · simp [List.filterMap_cons, List.filter_cons, h, ih]
    · simp [List.filterMap_cons, List.filter_cons, h, ih]

theorem map_mean_removeCommonPfx (l : List TrackRecord) :
    (removeCommonPfx l).map TrackRecord.mean = l.map TrackRecord.mean := by
  cases l with
  | nil => rfl
  | cons r rest =>
    cases rest with
    | nil => rfl
    | cons q rest2 =>
      simp only [removeCommonPfx]
      split_ifs
      · rfl
      · simp [List.map_map, Function.comp]

theorem pairwise_mean_removeCommonPfx (l : List TrackRecord)
    (h : l.Pairwise (fun a b => b.mean ≤ a.mean)) :
    (removeCommonPfx l).Pairwise (fun a b => b.mean ≤ a.mean) := by
  cases l with
  | nil => exact h
  | cons r rest =>
    cases rest with
    | nil => exact h
    | cons q rest2 =>
      simp only [removeCommonPfx]
      split_ifs
      · exact h
      · rw [List.pairwise_map]
        simpa using h

theorem sorted_desc_insertionSort (l : List TrackRecord) :
    (List.insertionSort (fun a b : TrackRecord => b.mean ≤ a.mean) l).Pairwise
      (fun a b : TrackRecord => b.mean ≤ a.mean) := by
  haveI : IsTotal TrackRecord (fun a b : TrackRecord => b.mean ≤ a.mean) :=
    ⟨fun a b => le_total b.mean a.mean⟩
  haveI : IsTrans TrackRecord (fun a b : TrackRecord => b.mean ≤ a.mean) :=
    ⟨fun a b c h1 h2 => le_trans h2 h1⟩
  exact List.sorted_insertionSort _ _

theorem get_tracking_records_eq (toData : SeriesModel → SeriesModel) (c : Collection) :
    (get_tracking toData c).records =
      removeCommonPfx (List.insertionSort (fun a b : TrackRecord => b.mean ≤ a.mean)
        ((c.tracking.filter (fun kv => statKind kv.1 == sortKey)).map recordOf)) := by
  have h := core_res toData c.tracking ([], c.tracking, false)
  simp only [List.nil_append] at h
  show removeCommonPfx (List.insertionSort _ (get_tracking_core toData c.tracking).1) = _
  rw [get_tracking_core, h, filterMap_statKey]

/-- C7: `get_tracking` yields exactly one record per tracking-store key with
stat kind l2 (means in bijection with those keys, hence also the lengths
agree, and no record of any other stat kind), sorted descending by mean,
and an empty store yields the empty sequence. -/
theorem get_tracking_l2_sorted_desc (toData : SeriesModel → SeriesModel)
    (c : Collection) :
    ((get_tracking toData c).records.map TrackRecord.mean).Perm
      ((c.tracking.filter (fun kv => statKind kv.1 == sortKey)).map
        (fun kv => kv.2.mean)) ∧
    (get_tracking toData c).records.length =
      (c.tracking.filter (fun kv => statKind kv.1 == sortKey)).length ∧
    (get_tracking toData c).records.Pairwise (fun a b => b.mean ≤ a.mean) ∧
    (c.tracking = [] → (get_tracking toData c).records = []) := by
  have hrec := get_tracking_records_eq toData c
  have hperm : ((get_tracking toData c).records.map TrackRecord.mean).Perm
      ((c.tracking.filter (fun kv => statKind kv.1 == sortKey)).map
        (fun kv => kv.2.mean)) := by
    rw [hrec, map_mean_removeCommonPfx]
    have h1 := (List.perm_insertionSort
      (fun a b : TrackRecord => b.mean ≤ a.mean)
      ((c.tracking.filter (fun kv => statKind kv.1 == sortKey)).map recordOf)).map
      TrackRecord.mean
    refine h1.trans ?_
    rw [List.map_map]
    exact List.Perm.refl _
  refine ⟨hperm, ?_, ?_, ?_⟩
  · have := hperm.length_eq
    simpa [List.length_map] using this
  · rw [hrec]
    exact pairwise_mean_removeCommonPfx _ (sorted_desc_insertionSort _)
  · intro h
    rw [h] at hrec
    simpa [List.insertionSort, removeCommonPfx] using hrec

theorem get_tracking_l2_sorted_desc_witness :
    (Collection.tracking ⟨∅, []⟩ = []) ∧
    (get_tracking (fun s => s) ⟨∅, []⟩).records = [] :=
  ⟨rfl, (get_tracking_l2_sorted_desc (fun s => s) ⟨∅, []⟩).2.2.2 rfl⟩

/-- C8: during one `get_tracking` call the collection is saved at most once;
it is saved exactly when some processed (l2) series reports
`is_smoothed_updated`, and the refreshed series are written back into the
tracking store under their original keys (all other entries untouched)
before that single save decision. -/
theorem get_tracking_single_save (toData : SeriesModel → SeriesModel)
    (c : Collection) (hnd : (c.tracking.map Prod.fst).Nodup) :
    (get_tracking toData c).saves ≤ 1 ∧
    (get_tracking toData c).saves =
      (if c.tracking.any refreshedB then 1 else 0) ∧
    (get_tracking toData c).collection.tracking =
      c.tracking.map (refreshEntry toData) := by
  have hupd : (get_tracking_core toData c.tracking).2.2 =
      c.tracking.any refreshedB := by
    have := core_upd toData c.tracking ([], c.tracking, false)
    simpa [get_tracking_core] using this
  refine ⟨?_, ?_, ?_⟩
  · show (if (get_tracking_core toData c.tracking).2.2 then 1 else 0) ≤ 1
    split_ifs <;> omega
  · show (if (get_tracking_core toData c.tracking).2.2 then 1 else 0) = _
    rw [hupd]
  · exact get_tracking_core_trk toData c.tracking hnd

theorem get_tracking_single_save_witness :
    (([("param.a.l2", (⟨3, false, 1⟩ : SeriesModel)), ("param.b.l2", ⟨1, true, 2⟩),
       ("param.a.mean", ⟨7, false, 3⟩)].map Prod.fst).Nodup) ∧
    ((get_tracking (fun s => s)
        ⟨∅, [("param.a.l2", ⟨3, false, 1⟩), ("param.b.l2", ⟨1, true, 2⟩),
             ("param.a.mean", ⟨7, false, 3⟩)]⟩).saves ≤ 1 ∧
     (get_tracking (fun s => s)
        ⟨∅, [("param.a.l2", ⟨3, false, 1⟩), ("param.b.l2", ⟨1, true, 2⟩),
             ("param.a.mean", ⟨7, false, 3⟩)]⟩).saves =
       (if ([("param.a.l2", (⟨3, false, 1⟩ : SeriesModel)), ("param.b.l2", ⟨1, true, 2⟩),
            ("param.a.mean", ⟨7, false, 3⟩)].any refreshedB) then 1 else 0) ∧
     (get_tracking (fun s => s)
        ⟨∅, [("param.a.l2", ⟨3, false, 1⟩), ("param.b.l2", ⟨1, true, 2⟩),
             ("param.a.mean", ⟨7, false, 3⟩)]⟩).collection.tracking =
       [("param.a.l2", (⟨3, false, 1⟩ : SeriesModel)), ("param.b.l2", ⟨1, true, 2⟩),
        ("param.a.mean", ⟨7, false, 3⟩)].map (refreshEntry (fun s => s))) :=
  ⟨by decide,
   get_tracking_single_save (fun s => s)
     ⟨∅, [("param.a.l2", ⟨3, false, 1⟩), ("param.b.l2", ⟨1, true, 2⟩),
          ("param.a.mean", ⟨7, false, 3⟩)]⟩ (by decide)⟩

theorem dlookup_of_mem_nodup {κ α : Type} [DecidableEq κ] (l : List (κ × α))
    (k : κ) (v : α) (hnd : (l.map Prod.fst).Nodup) (hmem : (k, v) ∈ l) :
    dlookup l k = some v := by
  induction l with
  | nil => simp at hmem
  | cons p rest ih =>
    obtain ⟨k', v'⟩ := p
    simp only [List.map_cons, List.nodup_cons] at hnd
    rcases List.mem_cons.mp hmem with h | h
    · obtain ⟨h1, h2⟩ := Prod.mk.injEq .. ▸ h
      · subst h1; subst h2
        simp [dlookup]
    · have hk : k ∈ rest.map Prod.fst := by
        rw [List.mem_map]
        exact ⟨(k, v), h, rfl⟩
      have hne : ¬ k' = k := fun e => hnd.1 (e ▸ hk)
      simp only [dlookup, if_neg hne]
      exact ih hnd.2 h

/-- C10: `get_track_summaries` leaves the collection unchanged;
`get_tracking` never changes the tracked set, rewrites the tracking store
entrywise so that exactly the l2-keyed entries whose series reports
`is_smoothed_updated` are replaced (by the refreshed series, under the same
key), and every other entry's stored value is unchanged. -/
theorem read_views_frame (toData : SeriesModel → SeriesModel) (c : Collection)
    (hnd : (c.tracking.map Prod.fst).Nodup) :
    (get_track_summaries c).2 = c ∧
    (get_tracking toData c).collection.indicators = c.indicators ∧
    (get_tracking toData c).collection.tracking =
      c.tracking.map (refreshEntry toData) ∧
    (∀ kv ∈ c.tracking,
      ¬(statKind kv.1 = sortKey ∧ kv.2.isSmoothedUpdated = true) →
      dlookup (get_tracking toData c).collection.tracking kv.1 =
        dlookup c.tracking kv.1) := by
  have htrk : (get_tracking toData c).collection.tracking =
      c.tracking.map (refreshEntry toData) :=
    get_tracking_core_trk toData c.tracking hnd
  refine ⟨?_, rfl, htrk, ?_⟩
  · by_cases h : buildGroups c.tracking = [] <;> simp [get_track_summaries, h]
  · intro kv hkv hcond
    obtain ⟨k, v⟩ := kv
    have hf : refreshEntry toData (k, v) = (k, v) := by
      simp only [refreshEntry, if_neg hcond]
    have hnd2 : ((c.tracking.map (refreshEntry toData)).map Prod.fst).Nodup := by
      rw [map_fst_map_refreshEntry]; exact hnd
    have hm2 : (k, v) ∈ c.tracking.map (refreshEntry toData) := by
      have := List.mem_map_of_mem (refreshEntry toData) hkv
      rwa [hf] at this
    rw [htrk, dlookup_of_mem_nodup _ _ _ hnd2 hm2, dlookup_of_mem_nodup _ _ _ hnd hkv]

theorem read_views_frame_witness :
    (([("param.a.l2", (⟨3, false, 1⟩ : SeriesModel)), ("param.b.l2", ⟨1, true, 2⟩),
       ("param.a.mean", ⟨7, false, 3⟩)].map Prod.fst).Nodup) ∧
    (("param.a.l2", (⟨3, false, 1⟩ : SeriesModel)) ∈
      [("param.a.l2", (⟨3, false, 1⟩ : SeriesModel)), ("param.b.l2", ⟨1, true, 2⟩),
       ("param.a.mean", ⟨7, false, 3⟩)]) ∧
    ¬(statKind "param.a.l2" = sortKey ∧
      SeriesModel.isSmoothedUpdated ⟨3, false, 1⟩ = true) ∧
    dlookup (get_tracking (fun s => s)
        ⟨∅, [("param.a.l2", ⟨3, false, 1⟩), ("param.b.l2", ⟨1, true, 2⟩),
             ("param.a.mean", ⟨7, false, 3⟩)]⟩).collection.tracking "param.a.l2" =
      dlookup [("param.a.l2", (⟨3, false, 1⟩ : SeriesModel)), ("param.b.l2", ⟨1, true, 2⟩),
               ("param.a.mean", ⟨7, false, 3⟩)] "param.a.l2" :=
  ⟨by decide, by decide, by decide,
   (read_views_frame (fun s => s)
      ⟨∅, [("param.a.l2", ⟨3, false, 1⟩), ("param.b.l2", ⟨1, true, 2⟩),
           ("param.a.mean", ⟨7, false, 3⟩)]⟩ (by decide)).2.2.2
     ("param.a.l2", ⟨3, false, 1⟩) (by decide) (by decide)⟩

/-! ### Entity lifecycle (`get_or_create`) -/

/-- C9: `get_or_create` is idempotent: a second call for the same run mutates
nothing and returns the same (existing) collection, and the first call for an
unindexed run creates and indexes both the collection entity and its
preferences entity. -/
theorem get_or_create_idempotent (st : Store) (run : String) :
    (get_or_create (get_or_create st run).1 run).1 = (get_or_create st run).1 ∧
    (get_or_create (get_or_create st run).1 run).2 = (get_or_create st run).2 ∧
    (dlookup st.paramsIndex run = none →
      dlookup (get_or_create st run).1.paramsIndex run = some st.nextKey ∧
      dlookup (get_or_create st run).1.paramsModels st.nextKey =
        some emptyCollection ∧
      dlookup (get_or_create st run).1.prefsIndex run = some (st.nextKey + 1) ∧
      (st.nextKey + 1) ∈ (get_or_create st run).1.prefsModels ∧
      (get_or_create st run).2 = emptyCollection) := by
  cases h : dlookup st.paramsIndex run with
  | some k =>
    refine ⟨?_, ?_, ?_⟩
    · simp [get_or_create, h]
    · simp [get_or_create, h]
    · intro hnone
      exact absurd hnone (by simp)
  | none =>
    refine ⟨?_, ?_, ?_⟩
    · simp [get_or_create, h, dlookup_dictInsert_self]
    · simp [get_or_create, h, dlookup_dictInsert_self]
    · intro _
      refine ⟨?_, ?_, ?_, ?_, ?_⟩
      · simp [get_or_create, h, dlookup_dictInsert_self]
      · simp [get_or_create, h, dlookup_dictInsert_self]
      · simp [get_or_create, h, dlookup_dictInsert_self]
      · simp [get_or_create, h]
      · simp [get_or_create, h]

theorem get_or_create_idempotent_witness :
    dlookup (Store.paramsIndex ⟨[], [], [], [], 0⟩) "run1" = none ∧
    (dlookup (get_or_create ⟨[], [], [], [], 0⟩ "run1").1.paramsIndex "run1" =
        some 0 ∧
     dlookup (get_or_create ⟨[], [], [], [], 0⟩ "run1").1.paramsModels 0 =
        some emptyCollection ∧
     dlookup (get_or_create ⟨[], [], [], [], 0⟩ "run1").1.prefsIndex "run1" =
        some 1 ∧
     (1 : Nat) ∈ (get_or_create ⟨[], [], [], [], 0⟩ "run1").1.prefsModels ∧
     (get_or_create ⟨[], [], [], [], 0⟩ "run1").2 = emptyCollection) :=
  ⟨rfl, (get_or_create_idempotent ⟨[], [], [], [], 0⟩ "run1").2.2 rfl⟩

end LabmlParams
